import Mathlib

/-!
# Verification of the keeper local secret engine

Shallow embedding of the keeper repository's secret-store core:

* the encrypted local provider (`package local` in `internal/sharing/sharing.go`,
  second document): `GetSecret`, `SetSecret`, `DeleteSecret`, `ListSecrets`,
  `GetSecretVersion`, `ListSecretVersions`, `RollbackSecret`, `SearchSecrets`,
  `RotateKey`, `CleanupInvalidSecrets`, over the keychain of
  `internal/keychain/keychain.go`;
* the plain (unencrypted) local provider of `internal/providers/local/local.go`
  with its `matchesSearch` and schema validation of
  `internal/providers/schema.go`;
* the schema validator of `internal/schema/schema.go`;
* the Azure provider's value rotation `RotateSecret` of
  `internal/providers/azure` (src/unnamed/part_002).

Modelling conventions:

* Byte strings and JSON text are Lean `String`s; timestamps are `Nat`
  (Go `time.Time` instants; `t.Before u` is `t < u`, the zero time is `0`,
  and RFC3339 rendering is modelled by the injective `toString : Nat → String`).
  The two `time.Now()` calls inside one operation (e.g. `Created` and
  `Updated` in `SetSecret`) are modelled as the same instant `now`,
  one clock reading per operation.
* Go maps used as string-keyed dictionaries (the keychain contents, the
  on-disk secret tree, metadata) are association lists with
  first-occurrence lookup; `setA` replaces the first binding or appends,
  matching overwrite semantics of `keyring.Set` and `os.WriteFile`.
* AES-GCM is modelled symbolically: an encrypted blob records the key value
  it was sealed under together with the sealed payload; `Decrypt` succeeds
  exactly when the key value named `master` at decryption time equals the
  recorded one (GCM authentication failure otherwise).  Key values are
  opaque `Nat` identifiers; `GenerateKey` draws a fresh one.
* `json.Marshal`/`json.Unmarshal` of a `Secret` record are injective and
  mutually inverse on the records this code produces, so a sealed blob
  stores the record itself.
* Go's `sort.Sort(sort.Reverse(sort.IntSlice(v)))` is modelled by
  `List.insertionSort (· ≥ ·)`: the result of any correct comparison sort
  on a list of integers is the same list.
-/

namespace Keeper

/-- User metadata: Go `map[string]string`, as an association list. -/
abbrev Metadata := List (String × String)

/-- First-occurrence lookup in an association list (Go map indexing). -/
def lookupA {α : Type} : List (String × α) → String → Option α
  | [], _ => none
  | (k', v) :: t, k => if k' = k then some v else lookupA t k

/-- Store under a key: replace the first binding or append (Go map store,
`keyring.Set`, `os.WriteFile` overwrite). -/
def setA {α : Type} : List (String × α) → String → α → List (String × α)
  | [], k, v => [(k, v)]
  | (k', v') :: t, k, v => if k' = k then (k, v) :: t else (k', v') :: setA t k v

/-- Delete a key: remove the first binding (Go map delete, `keyring.Delete`,
`os.Remove`). -/
def removeA {α : Type} : List (String × α) → String → List (String × α)
  | [], _ => []
  | (k', v') :: t, k => if k' = k then t else (k', v') :: removeA t k

/-- One version record of a secret: the non-recursive fields of
`providers.Secret` (internal/providers/provider.go lines 10-17):
`Value`, `Metadata`, `Created`, `Updated`, `Version`. -/
structure SRec where
  value : String
  metadata : Metadata
  created : Nat
  updated : Nat
  version : Nat
deriving Repr, DecidableEq

/-- A `providers.Secret` with its backward `PrevVersion` chain.
The Go struct's `PrevVersion *Secret` is a backward-linked list of version
records; we represent the whole chain as the current record `cur` together
with the list `prevChain` of ancestor records, most recent first
(`prevChain = []` is `PrevVersion == nil`). -/
structure Secret where
  cur : SRec
  prevChain : List SRec
deriving Repr, DecidableEq

/-- The version chain reachable from the current record, current first. -/
def Secret.chain (s : Secret) : List SRec := s.cur :: s.prevChain

/-- An on-disk blob: symbolic AES-GCM output.  `keyVal` is the key value the
payload was sealed under; `payload` is the JSON-serialized record (marshal is
injective, so the record itself is stored). -/
structure Blob where
  keyVal : Nat
  payload : Secret
deriving Repr, DecidableEq

/-- State of the encrypted local provider of internal/sharing/sharing.go
(second document, `package local`): the platform keychain (name ↦ key value),
a fresh-key counter, and the `secrets/` file tree (key ↦ encrypted blob). -/
structure Engine where
  keys : List (String × Nat)
  fresh : Nat
  disk : List (String × Blob)
deriving Repr, DecidableEq

/-- Error outcomes surfaced by the local provider's operations. -/
inductive Err
  /-- "secret not found": the path does not exist. -/
  | notFound
  /-- "failed to decrypt secret": GCM authentication failure. -/
  | decryptFailed
  /-- "failed to get key from keychain": named key absent. -/
  | keyNotFound
  /-- "invalid secret": `Secret.Validate` rejected the record. -/
  | invalidSecret
  /-- "version %d not found for secret %s". -/
  | versionNotFound
deriving Repr, DecidableEq

/-- `LocalProvider.GetSecret` (sharing.go lines 210-234): read the file at the
key's path (absent ⇒ not found), decrypt under the key named `master`
(key fetch or authentication failure ⇒ error), unmarshal. -/
def Engine.getSecret (e : Engine) (key : String) : Except Err Secret :=
  match lookupA e.disk key with
  | none => .error .notFound
  | some blob =>
    match lookupA e.keys "master" with
    | none => .error .keyNotFound
    | some k => if blob.keyVal = k then .ok blob.payload else .error .decryptFailed

/-- `LocalProvider.SetSecret` (sharing.go lines 237-295): read the existing
record if any (it becomes `PrevVersion`); build the new record with
`Version = prev+1` (else 1), `Created` carried from the previous record
(else now), `Updated = now`; `Validate` it (empty value rejected); marshal,
encrypt under `master`, write to the key's path. -/
def Engine.setSecret (e : Engine) (key value : String) (md : Metadata)
    (now : Nat) : Except Err Engine :=
  let prev := (e.getSecret key).toOption
  let secret : Secret :=
    match prev with
    | none => ⟨⟨value, md, now, now, 1⟩, []⟩
    | some p => ⟨⟨value, md, p.cur.created, now, p.cur.version + 1⟩, p.chain⟩
  if value = "" then .error .invalidSecret
  else
    match lookupA e.keys "master" with
    | none => .error .keyNotFound
    | some k => .ok { e with disk := setA e.disk key ⟨k, secret⟩ }

/-- `SetSecret` as a state transformer: the engine after the call.  The Go
function returns its error before `os.WriteFile`, so a failed call leaves the
file tree unchanged. -/
def Engine.applySet (e : Engine) (key value : String) (md : Metadata)
    (now : Nat) : Engine :=
  match e.setSecret key value md now with
  | .ok e' => e'
  | .error _ => e

/-- `LocalProvider.ListSecrets` (sharing.go lines 315-339): walk the secrets
tree and keep the keys with the requested literal prefix
(`strings.HasPrefix`, a byte-prefix test, is the character-list prefix
test here).  The directory walk visits files in path order; no claim here
depends on the order. -/
def Engine.listSecrets (e : Engine) (pre : String) : List String :=
  (e.disk.map Prod.fst).filter (fun k => pre.data.isPrefixOf k.data)

/-- `LocalProvider.GetSecretVersion` (sharing.go lines 342-357): decrypt the
current record and walk the `PrevVersion` chain for the first record with the
requested version number. -/
def Engine.getSecretVersion (e : Engine) (key : String) (v : Nat) :
    Except Err SRec :=
  match e.getSecret key with
  | .error err => .error err
  | .ok s =>
    match s.chain.find? (fun r => r.version = v) with
    | some r => .ok r
    | none => .error .versionNotFound

/-- `[n, n-1, ..., 1]`. -/
def descFrom : Nat → List Nat
  | 0 => []
  | n + 1 => (n + 1) :: descFrom n

/-- `LocalProvider.ListSecretVersions` (sharing.go lines 360-375): collect the
version numbers along the chain, then sort descending
(`sort.Sort(sort.Reverse(sort.IntSlice(versions)))`). -/
def Engine.listSecretVersions (e : Engine) (key : String) :
    Except Err (List Nat) :=
  match e.getSecret key with
  | .error err => .error err
  | .ok s => .ok ((s.chain.map SRec.version).insertionSort (· ≥ ·))

/-- `LocalProvider.RollbackSecret` (sharing.go lines 378-385): fetch the
target version (propagating its error), then perform a normal `SetSecret`
with that version's value and metadata. -/
def Engine.rollbackSecret (e : Engine) (key : String) (v : Nat) (now : Nat) :
    Except Err Engine :=
  match e.getSecretVersion key v with
  | .error err => .error err
  | .ok r => e.setSecret key r.value r.metadata now

/-- `LocalProvider.RotateKey` (sharing.go lines 429-489):
list all keys; decrypt and marshal each record, skipping (with only a log
line) any key that fails; `GenerateKey("master_new")`; re-encrypt every
collected record under `master_new` and overwrite its file in place, again
skipping failures; `DeleteKey("master")`; `RenameKey("master_new","master")`
(= get, store under new name, delete old).  The returned value on success is
plain `nil`: skipped keys are not part of the result.  (The error branches
after the re-encryption loop abandon an already mutated file tree; no theorem
below is about the state after a failed rotation.)  `rotData` is the
`secretsData` collection pass (lines 437-452): decrypt and marshal every
listed record, skipping any key whose `GetSecret` fails. -/
def rotData (e : Engine) : List (String × Secret) :=
  (e.listSecrets "").filterMap fun k =>
    (e.getSecret k).toOption.map (fun s => (k, s))

/-- The locked phase of `RotateKey`: generate, re-encrypt, swap. -/
def Engine.rotateKey (e : Engine) : Except Err Engine :=
  let secretsData := rotData e
  -- GenerateKey("master_new"): fresh key value, stored under the name
  let n := e.fresh
  let keys1 := setA e.keys "master_new" n
  -- re-encrypt all collected records with the new key
  let disk1 := secretsData.foldl
    (fun d ks =>
      match lookupA keys1 "master_new" with
      | none => d  -- Encrypt failed: key skipped
      | some nv => setA d ks.1 ⟨nv, ks.2⟩)
    e.disk
  -- DeleteKey("master"): keyring.Delete fails if the name is absent
  match lookupA keys1 "master" with
  | none => .error .keyNotFound
  | some _ =>
    let keys2 := removeA keys1 "master"
    -- RenameKey("master_new", "master")
    match lookupA keys2 "master_new" with
    | none => .error .keyNotFound
    | some nv =>
      .ok { keys := removeA (setA keys2 "master" nv) "master_new",
            fresh := e.fresh + 1,
            disk := disk1 }

/-- A sequence of `SetSecret` calls on one key: each list element is the
`(value, metadata, now)` of one call, in order.  `foldlM` stops at the first
error, matching serialized calls where each must succeed. -/
def Engine.setMany (e : Engine) (key : String)
    (ops : List (String × Metadata × Nat)) : Except Err Engine :=
  ops.foldlM (fun acc op => acc.setSecret key op.1 op.2.1 op.2.2) e

/-! ## The plain (unencrypted) local provider

`internal/providers/local/local.go` is a second `LocalProvider` over the
name-keyed `providers.Secret` of cmd/kpr/cmd/search.go (second document,
`package providers`): fields `Name`, `Value`, `Metadata`, `Tags`, `Schema`,
`CreatedAt`, `UpdatedAt`.  Its `SetSecret` writes `json.MarshalIndent`
output directly to `secrets/<name>.json` — no call into the keychain. -/

/-- `providers.Secret` of the name-keyed provider family
(cmd/kpr/cmd/search.go lines 125-133). -/
structure PSecret where
  name : String
  value : String
  metadata : Metadata
  tags : List String
  schema : String
  createdAt : Nat
  updatedAt : Nat
deriving Repr, DecidableEq

/-- JSON string escaping as Go's `encoding/json` performs it: `"` and `\`
get a backslash, `<`, `>`, `&` become `\uXXXX` (HTML-safe default), other
characters are copied.  (Control characters do not occur in the inputs of
any theorem below.) -/
def jsonEscape (s : String) : String :=
  String.join <| s.data.map fun c =>
    if c = '"' then "\\\""
    else if c = '\\' then "\\\\"
    else if c = '<' then "\\u003c"
    else if c = '>' then "\\u003e"
    else if c = '&' then "\\u0026"
    else String.singleton c

/-- One `"key": "value"` member line at the given indent. -/
def jsonMember (indent key value : String) : String :=
  indent ++ "\"" ++ jsonEscape key ++ "\": \"" ++ jsonEscape value ++ "\""

/-- `json.MarshalIndent(secret, "", "  ")` of a `providers.Secret`
(local/local.go line 114): members in struct order — `name`, `value`,
`metadata`/`tags`/`schema` only when non-empty (`omitempty`), `created_at`,
`updated_at` — with two-space indent.  Timestamps are rendered with the
injective decimal rendering of the model's `Nat` instants. -/
def marshalIndentPSecret (s : PSecret) : String :=
  let members : List String :=
    [jsonMember "  " "name" s.name, jsonMember "  " "value" s.value]
    ++ (if s.metadata = [] then [] else
        ["  \"metadata\": \x7b\n"
          ++ String.intercalate ",\n"
              (s.metadata.map fun kv => jsonMember "    " kv.1 kv.2)
          ++ "\n  \x7d"])
    ++ (if s.tags = [] then [] else
        ["  \"tags\": [\n"
          ++ String.intercalate ",\n"
              (s.tags.map fun t => "    \"" ++ jsonEscape t ++ "\"")
          ++ "\n  ]"])
    ++ (if s.schema = "" then [] else [jsonMember "  " "schema" s.schema])
    ++ ["  \"created_at\": " ++ toString s.createdAt,
        "  \"updated_at\": " ++ toString s.updatedAt]
  "\x7b\n" ++ String.intercalate ",\n" members ++ "\n\x7d"

/-- `providers.SchemaField` (internal/providers/schema.go lines 11-20). -/
structure SchemaField where
  typ : String
  required : Bool
  minLen : Nat
  maxLen : Nat
  pattern : String
  enum : List String
deriving Repr, DecidableEq

/-- `providers.Schema` (internal/providers/schema.go lines 23-28); `fields`
is the `map[string]SchemaField`, in iteration order. -/
structure PSchema where
  name : String
  version : String
  fields : List (String × SchemaField)
deriving Repr, DecidableEq

/-- Validation-error outcomes of the two schema validators, carrying the
field name the Go error message names. -/
inductive VErr
  | missingRequired (field : String)
  | tooShort (field : String)
  | tooLong (field : String)
  | patternMismatch (field : String)
  | notInEnum (field : String)
  | unknownField (field : String)
  /-- internal/schema: "invalid field %s: expected <type>, got %T". -/
  | wrongType (field : String)
deriving Repr, DecidableEq

/-- `providers.validateField` (internal/providers/schema.go lines 76-108):
length bounds (when set), then pattern (when set), then enum membership
(when set) — and no check of `field.Type` whatsoever.  `rx pattern value`
is the oracle for `regexp.MustCompile(pattern).MatchString(value)` (the Go
regexp engine is an external library). -/
def validateField (rx : String → String → Bool) (name value : String)
    (f : SchemaField) : Except VErr Unit :=
  if 0 < f.minLen ∧ value.length < f.minLen then .error (.tooShort name)
  else if 0 < f.maxLen ∧ f.maxLen < value.length then .error (.tooLong name)
  else if f.pattern ≠ "" ∧ rx f.pattern value = false then
    .error (.patternMismatch name)
  else if f.enum ≠ [] ∧ f.enum.contains value = false then
    .error (.notInEnum name)
  else .ok ()

/-- The required-field pass of `providers.ValidateSecret` (schema.go lines
52-58): fail on the first required field absent from the metadata. -/
def checkRequired : List (String × SchemaField) → Metadata → Except VErr Unit
  | [], _ => .ok ()
  | (n, f) :: rest, md =>
    if f.required ∧ (lookupA md n).isNone then .error (.missingRequired n)
    else checkRequired rest md

/-- The per-field pass of `providers.ValidateSecret` (schema.go lines
61-70): for each present metadata entry, validate it when the schema
declares the field; undeclared fields are skipped. -/
def checkFields (rx : String → String → Bool)
    (fields : List (String × SchemaField)) :
    Metadata → Except VErr Unit
  | [] => .ok ()
  | (n, v) :: rest =>
    match lookupA fields n with
    | none => checkFields rx fields rest
    | some f =>
      match validateField rx n v f with
      | .error err => .error err
      | .ok () => checkFields rx fields rest

/-- `providers.ValidateSecret` (internal/providers/schema.go lines 46-73):
required-field pass, then the per-field pass over the secret's metadata. -/
def validateSecret (rx : String → String → Bool) (md : Metadata)
    (schema : PSchema) : Except VErr Unit :=
  match checkRequired schema.fields md with
  | .error err => .error err
  | .ok () => checkFields rx schema.fields md

/-- Error outcomes of the plain provider's `SetSecret`. -/
inductive PErr
  | schemaLoadFailed
  | validation (e : VErr)
  /-- `Secret.Validate` (search.go lines 176-184): empty name or value. -/
  | invalidSecret
deriving Repr, DecidableEq

/-- `LocalProvider.SetSecret` of internal/providers/local/local.go lines
83-126: load and apply the schema when `secret.Schema` is set
(`schemaLookup` stands for `LoadSchema` on the `schemas/` tree), run
`secret.Validate()`, stamp `CreatedAt` (when zero) and `UpdatedAt` with
`now`, `json.MarshalIndent`, and write the result to
`secrets/<name>.json`.  The returned string is the exact file contents
written on success — written in the clear, with no keychain call. -/
def plainSetSecretData (rx : String → String → Bool)
    (schemaLookup : String → Option PSchema) (s : PSecret) (now : Nat) :
    Except PErr String :=
  let afterSchema : Except PErr Unit :=
    if s.schema ≠ "" then
      match schemaLookup s.schema with
      | none => .error .schemaLoadFailed
      | some sch =>
        match validateSecret rx s.metadata sch with
        | .error err => .error (.validation err)
        | .ok () => .ok ()
    else .ok ()
  match afterSchema with
  | .error err => .error err
  | .ok () =>
    if s.name = "" ∨ s.value = "" then .error .invalidSecret
    else
      let createdAt := if s.createdAt = 0 then now else s.createdAt
      .ok (marshalIndentPSecret { s with createdAt, updatedAt := now })

/-- `providers.SearchOptions` (search.go lines 136-140). -/
structure SearchOptions where
  schema : String
  tags : List String
  createdAfter : Nat
deriving Repr, DecidableEq

/-- The tag loop of `matchesSearch` (local/local.go lines 203-216),
transcribed exactly: `found` is declared once, before the loop over the
requested tags, and is never reset between iterations; the inner loop over
the secret's tags sets it on a match. -/
def matchesTagsLoop (secretTags : List String) : List String → Bool → Bool
  | [], _ => true
  | tag :: rest, found =>
    let found := found || secretTags.contains tag
    if found = false then false else matchesTagsLoop secretTags rest found

/-- `matchesSearch` (internal/providers/local/local.go lines 196-224):
schema equality when requested, the tag loop when tags are requested, and
`CreatedAt` not before `CreatedAfter` when that is set. -/
def matchesSearch (s : PSecret) (opts : SearchOptions) : Bool :=
  if opts.schema ≠ "" ∧ s.schema ≠ opts.schema then false
  else if opts.tags ≠ [] ∧ matchesTagsLoop s.tags opts.tags false = false then
    false
  else if opts.createdAfter ≠ 0 ∧ s.createdAt < opts.createdAfter then false
  else true

/-- `LocalProvider.SearchSecrets` of internal/providers/local/local.go lines
178-193: list all stored secrets, keep those matching the criteria. -/
def plainSearchSecrets (store : List PSecret) (opts : SearchOptions) :
    List PSecret :=
  store.filter (fun s => matchesSearch s opts)

/-- Does the secret carry every requested tag?  (The containment predicate
the spec states for tag search; not a function of the source.) -/
def carriesAllTags (s : PSecret) (reqTags : List String) : Bool :=
  reqTags.all (fun t => s.tags.contains t)

/-! ## The internal/schema validator -/

/-- A decoded JSON value as `internal/schema`'s `interface{}` receives it:
the cases `Field.validate` distinguishes. -/
inductive JValue
  | str (s : String)
  | num (n : Int)
  | bool (b : Bool)
deriving Repr, DecidableEq

/-- `schema.Field` (internal/schema/schema.go lines 21-29). -/
structure SField where
  typ : String
  required : Bool
  pattern : String
  minLength : Option Nat
  maxLength : Option Nat
  enum : List String
deriving Repr, DecidableEq

/-- `Field.validate` (internal/schema/schema.go lines 67-125): a type check
first — `string`/`password` expect a string and then check length bounds,
pattern and enum in that order; `number` expects a numeric value and checks
nothing else; `boolean` expects a boolean; any other type name falls
through the switch and passes. -/
def fieldValidate (rx : String → String → Bool) (name : String) (f : SField)
    (v : JValue) : Except VErr Unit :=
  if f.typ = "string" ∨ f.typ = "password" then
    match v with
    | .str str =>
      if ∃ m, f.minLength = some m ∧ str.length < m then
        .error (.tooShort name)
      else if ∃ m, f.maxLength = some m ∧ m < str.length then
        .error (.tooLong name)
      else if f.pattern ≠ "" ∧ rx f.pattern str = false then
        .error (.patternMismatch name)
      else if f.enum ≠ [] ∧ f.enum.contains str = false then
        .error (.notInEnum name)
      else .ok ()
    | _ => .error (.wrongType name)
  else if f.typ = "number" then
    match v with
    | .num _ => .ok ()
    | _ => .error (.wrongType name)
  else if f.typ = "boolean" then
    match v with
    | .bool _ => .ok ()
    | _ => .error (.wrongType name)
  else .ok ()

/-- `Schema.Validate` (internal/schema/schema.go lines 41-64): required
fields first, then each present field — unknown fields are rejected here,
and `Field.validate` errors are wrapped naming the field. -/
def schemaValidate (rx : String → String → Bool)
    (fields : List (String × SField)) (value : List (String × JValue)) :
    Except VErr Unit :=
  match fields.find? (fun nf => nf.2.required && (lookupA value nf.1).isNone) with
  | some nf => .error (.missingRequired nf.1)
  | none =>
    value.foldlM
      (fun _ nv =>
        match lookupA fields nv.1 with
        | none => .error (.unknownField nv.1)
        | some f => fieldValidate rx nv.1 f nv.2)
      ()

/-! ## Azure value rotation -/

/-- `providers.RotationPolicy` as the Azure/AWS rotation code reads it
(the struct itself lives in a file absent from src/; its fields are fixed
by every use site and by §3 of the design: `Interval`, `Length`,
`CharacterSet`, `LastRotation`, `NextRotation`).  The optional
`CustomGenerator` capability is passed separately below. -/
structure RotationPolicy where
  interval : Nat
  length : Nat
  characterSet : String
  lastRotation : Nat
  nextRotation : Nat
deriving Repr, DecidableEq

/-- `AzureProvider.RotateSecret` (src/unnamed/part_002 lines 147-186): with
the secret and its policy already fetched — if `now` is before
`NextRotation`, return nil without calling `SetSecret` (`none` here:
nothing is written); otherwise produce the new value with the custom
generator if supplied, else `"rotated-<oldValue>-<unixNow>"`; stamp
`previous_value`, `last_rotation = now` and `next_rotation = now+interval`
into the metadata and write value and metadata back via `SetSecret`
(`some (newValue, metadata)` here). -/
def azureRotateSecret (secret : PSecret) (policy : RotationPolicy)
    (customGenerator : Option (Unit → String)) (now : Nat) :
    Option (String × Metadata) :=
  if now < policy.nextRotation then none
  else
    let newValue :=
      match customGenerator with
      | some g => g ()
      | none => "rotated-" ++ secret.value ++ "-" ++ toString now
    let md := setA secret.metadata "previous_value" secret.value
    let md := setA md "last_rotation" (toString now)
    let md := setA md "next_rotation" (toString (now + policy.interval))
    some (newValue, md)

/-- The named character sets of the design (§3/§4.4): `numeric`, `hex`,
`ascii`, defaulting to alphanumeric for any other name.  Membership test
for a generated character. -/
def charsetMember (name : String) (c : Char) : Bool :=
  if name = "numeric" then c.isDigit
  else if name = "hex" then c.isDigit || ('a' ≤ c && c ≤ 'f')
  else if name = "ascii" then '!' ≤ c && c ≤ '~'
  else c.isAlphanum

/-! ## Derived notions and concrete fixtures -/

/-- The version numbers along the chain reachable from the current record. -/
def chainVersions (s : Secret) : List Nat := s.chain.map SRec.version

/-- `needle` occurs as a contiguous substring of `hay`. -/
def containsSubstring (hay needle : String) : Prop :=
  ∃ pre post, hay = pre ++ needle ++ post

/-- An engine holding only the master key (value 0) over an empty tree. -/
def eng0 : Engine := ⟨[("master", 0)], 1, []⟩

/-- A readable stored secret. -/
def sGood : Secret := ⟨⟨"g-val", [("env", "prod")], 1, 1, 1⟩, []⟩

/-- A second stored secret, sealed below under a stale key value. -/
def sBad : Secret := ⟨⟨"b-val", [], 1, 1, 1⟩, []⟩

/-- A corpus whose record `bad` was sealed under key value 7 while the
master key value is 0: its decryption fails (the mixed-key state rotation
is meant to repair). -/
def engC4 : Engine := ⟨[("master", 0)], 1,
  [("good", ⟨0, sGood⟩), ("bad", ⟨7, sBad⟩)]⟩

/-- The engine `RotateKey` produces from `engC4`: re-keyed `good`, `bad`
untouched, new master key value 1 — and nothing recording that `bad`
failed. -/
def engC4' : Engine := ⟨[("master", 1)], 2,
  [("good", ⟨1, sGood⟩), ("bad", ⟨7, sBad⟩)]⟩

/-- Secret `a` of the search scenario: tags `[x]`. -/
def aC6 : PSecret := ⟨"a", "va", [], ["x"], "", 1, 1⟩

/-- Secret `b` of the search scenario: tags `[x, y]`. -/
def bC6 : PSecret := ⟨"b", "vb", [], ["x", "y"], "", 1, 1⟩

/-- Secret `c` of the search scenario: tags `[y]`. -/
def cC6 : PSecret := ⟨"c", "vc", [], ["y"], "", 1, 1⟩

/-- A schema field `port` of type `number`, required, with no length,
pattern or enum constraints (as in `schemas/db_credentials.json`). -/
def portField : SchemaField := ⟨"number", true, 0, 0, "", []⟩

/-- A schema requiring only `port : number`. -/
def portSchema : PSchema := ⟨"db", "1.0", [("port", portField)]⟩

/-- The same `port : number` field for the internal/schema validator. -/
def portSField : SField := ⟨"number", true, "", none, none, []⟩

/-- A secret referencing the `db` schema with `port` set to a non-number. -/
def secretC9 : PSecret :=
  ⟨"db-conn", "hunter2", [("port", "not-a-number")], [], "db", 0, 0⟩

/-- A secret with a plaintext value for the persistence theorem. -/
def secretC1 : PSecret := ⟨"db", "p@ss1", [], [], "", 0, 0⟩

/-- A secret subject to value rotation. -/
def secretC8 : PSecret := ⟨"s", "v", [], [], "", 0, 0⟩

/-- A rotation policy: 32 alphanumeric characters, due at instant 5. -/
def policyC8 : RotationPolicy := ⟨10, 32, "alphanumeric", 0, 5⟩

/-- Version 1 of the rollback scenario's chain. -/
def rC7v1 : SRec := ⟨"p@ss1", [("env", "prod")], 3, 3, 1⟩

/-- A two-version chain: current version 2, previous version `rC7v1`. -/
def sC7 : Secret := ⟨⟨"p@ss2", [("rotated", "true")], 3, 5, 2⟩, [rC7v1]⟩

/-- An engine storing `sC7` under key `k`, sealed under the master key. -/
def engC7 : Engine := ⟨[("master", 0)], 1, [("k", ⟨0, sC7⟩)]⟩

/-! ## Association-list and chain lemmas -/

theorem lookupA_setA_self {α : Type} (l : List (String × α)) (k : String)
    (v : α) : lookupA (setA l k v) k = some v := by
  induction l with
  | nil => simp [setA, lookupA]
  | cons p t ih =>
    by_cases h : p.1 = k
    · simp [setA, h, lookupA]
    · simp [setA, h, lookupA, ih]

theorem lookupA_setA_ne {α : Type} (l : List (String × α)) {k k' : String}
    (v : α) (h : k' ≠ k) : lookupA (setA l k v) k' = lookupA l k' := by
  induction l with
  | nil => simp [setA, lookupA, Ne.symm h]
  | cons p t ih =>
    by_cases hp : p.1 = k
    · subst hp
      simp [setA, lookupA, h, Ne.symm h]
    · by_cases hp' : p.1 = k'
      · simp [setA, lookupA, hp, hp', h]
      · simp [setA, lookupA, hp, hp', ih]

theorem lookupA_removeA_ne {α : Type} (l : List (String × α)) {k k' : String}
    (h : k' ≠ k) : lookupA (removeA l k) k' = lookupA l k' := by
  induction l with
  | nil => simp [removeA]
  | cons p t ih =>
    by_cases hp : p.1 = k
    · subst hp
      simp [removeA, lookupA, Ne.symm h]
    · by_cases hp' : p.1 = k'
      · simp [removeA, lookupA, hp, hp', h]
      · simp [removeA, lookupA, hp, hp', ih]

theorem lookupA_mem {α : Type} {l : List (String × α)} {k : String} {v : α}
    (h : lookupA l k = some v) : (k, v) ∈ l := by
  induction l with
  | nil => simp [lookupA] at h
  | cons p t ih =>
    obtain ⟨pk, pv⟩ := p
    by_cases hp : pk = k
    · subst hp
      simp [lookupA] at h
      subst h
      exact List.mem_cons_self _ _
    · simp [lookupA, hp] at h
      exact List.mem_cons_of_mem _ (ih h)

/-- Eliminate a successful `GetSecret`: the file is present and its blob was
sealed under the current master key value, which carries the record. -/
theorem getSecret_ok_elim {e : Engine} {key : String} {s : Secret}
    (h : e.getSecret key = .ok s) :
    ∃ b m, lookupA e.disk key = some b ∧ lookupA e.keys "master" = some m ∧
      b.keyVal = m ∧ b.payload = s := by
  cases hb : lookupA e.disk key with
  | none => simp [Engine.getSecret, hb] at h
  | some b =>
    cases hm : lookupA e.keys "master" with
    | none => simp [Engine.getSecret, hb, hm] at h
    | some m =>
      by_cases hkv : b.keyVal = m
      · refine ⟨b, m, rfl, rfl, hkv, ?_⟩
        simp [Engine.getSecret, hb, hm, hkv] at h
        exact h
      · simp [Engine.getSecret, hb, hm, hkv] at h

/-- `SetSecret` over an existing record: the new record extends the chain,
bumps the version, keeps `Created`. -/
theorem setSecret_ok_next {e : Engine} {key : String} {s : Secret} {m : Nat}
    (hget : e.getSecret key = .ok s) (value : String) (md : Metadata)
    (now : Nat) (hv : value ≠ "") (hm : lookupA e.keys "master" = some m) :
    e.setSecret key value md now =
      .ok { e with disk := (setA e.disk key
        ⟨m, ⟨⟨value, md, s.cur.created, now, s.cur.version + 1⟩, s.chain⟩⟩) } := by
  simp [Engine.setSecret, hget, hm, hv, Except.toOption]

/-- `SetSecret` when the key has no readable record: the new record starts
the chain at version 1 with `Created = Updated = now`. -/
theorem setSecret_ok_first {e : Engine} {key : String} {err : Err} {m : Nat}
    (hget : e.getSecret key = .error err) (value : String) (md : Metadata)
    (now : Nat) (hv : value ≠ "") (hm : lookupA e.keys "master" = some m) :
    e.setSecret key value md now =
      .ok { e with disk := setA e.disk key ⟨m, ⟨⟨value, md, now, now, 1⟩, []⟩⟩ } := by
  simp [Engine.setSecret, hget, hm, hv, Except.toOption]

/-- Reading back the record just written under the current master key. -/
theorem getSecret_after_set {e : Engine} {key : String} {m : Nat} (b : Blob)
    (hm : lookupA e.keys "master" = some m) (hb : b.keyVal = m) :
    Engine.getSecret { e with disk := setA e.disk key b } key = .ok b.payload := by
  simp [Engine.getSecret, lookupA_setA_self, hm, hb]

theorem mem_descFrom_le {n v : Nat} (h : v ∈ descFrom n) : v ≤ n := by
  induction n with
  | zero => simp [descFrom] at h
  | succ k ih =>
    simp [descFrom] at h
    rcases h with h | h
    · omega
    · exact Nat.le_succ_of_le (ih h)

theorem descFrom_sorted (n : Nat) : (descFrom n).Sorted (· ≥ ·) := by
  induction n with
  | zero => simp [descFrom]
  | succ k ih =>
    rw [descFrom, List.sorted_cons]
    exact ⟨fun b hb => Nat.le_succ_of_le (mem_descFrom_le hb), ih⟩

theorem insertionSort_descFrom (n : Nat) :
    (descFrom n).insertionSort (· ≥ ·) = descFrom n :=
  (descFrom_sorted n).insertionSort_eq

/-- Invariant of iterated `SetSecret` on one key: each successful call
extends the chain by one contiguous version number and carries `Created`
through unchanged. -/
theorem setMany_chain (key : String) (m c : Nat) :
    ∀ (ops : List (String × Metadata × Nat)) (e : Engine) (s : Secret),
      (∀ op ∈ ops, op.1 ≠ "") → lookupA e.keys "master" = some m →
      e.getSecret key = .ok s →
      chainVersions s = descFrom s.cur.version →
      (∀ r ∈ s.chain, r.created = c) →
      ∃ e' s', e.setMany key ops = .ok e' ∧ e'.keys = e.keys ∧
        e'.getSecret key = .ok s' ∧
        s'.cur.version = s.cur.version + ops.length ∧
        chainVersions s' = descFrom (s.cur.version + ops.length) ∧
        ∀ r ∈ s'.chain, r.created = c := by
  intro ops
  induction ops with
  | nil =>
    intro e s _ _ hget hchain hc
    exact ⟨e, s, rfl, rfl, hget, by simp, by simpa using hchain, hc⟩
  | cons op rest ih =>
    obtain ⟨v, md, t⟩ := op
    intro e s hv hm hget hchain hc
    have hv0 : v ≠ "" := hv (v, md, t) (List.mem_cons_self _ _)
    have hset := setSecret_ok_next hget v md t hv0 hm
    set s1 : Secret :=
      ⟨⟨v, md, s.cur.created, t, s.cur.version + 1⟩, s.chain⟩ with hs1
    set e1 : Engine := { e with disk := setA e.disk key ⟨m, s1⟩ } with he1
    have hget1 : e1.getSecret key = .ok s1 := getSecret_after_set ⟨m, s1⟩ hm rfl
    have hchain1 : chainVersions s1 = descFrom s1.cur.version := by
      have : chainVersions s1 = (s.cur.version + 1) :: chainVersions s := by
        simp [chainVersions, Secret.chain, hs1]
      rw [this, hchain]
      rfl
    have hc1 : ∀ r ∈ s1.chain, r.created = c := by
      intro r hr
      rcases List.mem_cons.mp hr with h | h
      · rw [h]
        exact hc s.cur (List.mem_cons_self _ _)
      · exact hc r h
    obtain ⟨e', s', h1, h2, h3, h4, h5, h6⟩ :=
      ih e1 s1 (fun op hop => hv op (List.mem_cons_of_mem _ hop)) hm hget1
        hchain1 hc1
    have hlen : s1.cur.version + rest.length =
        s.cur.version + ((v, md, t) :: rest).length := by
      rw [hs1]
      simp
      omega
    refine ⟨e', s', ?_, h2, h3, ?_, ?_, h6⟩
    · simpa [Engine.setMany, List.foldlM_cons, hset] using h1
    · rw [h4, hlen]
    · rw [h5, hlen]

/-- Writing a batch of re-encrypted blobs leaves keys outside the batch
untouched. -/
theorem lookupA_foldl_not_mem (n : Nat) (ps : List (String × Secret))
    (d : List (String × Blob)) (key : String)
    (h : ∀ p ∈ ps, p.1 ≠ key) :
    lookupA (ps.foldl (fun d ks => setA d ks.1 ⟨n, ks.2⟩) d) key =
      lookupA d key := by
  induction ps generalizing d with
  | nil => rfl
  | cons p t ih =>
    rw [List.foldl_cons, ih _ (fun q hq => h q (List.mem_cons_of_mem _ hq))]
    exact lookupA_setA_ne _ _ (Ne.symm (h p (List.mem_cons_self _ _)))

/-- Writing a batch of re-encrypted blobs stores each batched record under
the new key value. -/
theorem lookupA_foldl_mem (n : Nat) (ps : List (String × Secret))
    (d : List (String × Blob)) (key : String) (s : Secret)
    (hnd : (ps.map Prod.fst).Nodup) (hmem : (key, s) ∈ ps) :
    lookupA (ps.foldl (fun d ks => setA d ks.1 ⟨n, ks.2⟩) d) key =
      some ⟨n, s⟩ := by
  induction ps generalizing d with
  | nil => simp at hmem
  | cons p t ih =>
    rcases List.mem_cons.mp hmem with h | h
    · subst h
      rw [List.foldl_cons]
      rw [lookupA_foldl_not_mem]
      · exact lookupA_setA_self _ _ _
      · intro q hq hqk
        have : key ∈ t.map Prod.fst := hqk ▸ List.mem_map_of_mem Prod.fst hq
        exact (List.nodup_cons.mp hnd).1 this
    · rw [List.foldl_cons]
      exact ih _ (List.nodup_cons.mp hnd).2 h

/-- A pair collected by the rotation pass is a readable record. -/
theorem rotData_mem_elim {e : Engine} {k : String} {s : Secret}
    (h : (k, s) ∈ rotData e) : e.getSecret k = .ok s := by
  obtain ⟨a, _, hfa⟩ := List.mem_filterMap.mp h
  cases hga : e.getSecret a with
  | error err => simp [hga, Except.toOption] at hfa
  | ok s' =>
    simp [hga, Except.toOption] at hfa
    obtain ⟨h1, h2⟩ := hfa
    rw [← h1, ← h2]
    exact hga

/-- Every readable stored record is collected by the rotation pass. -/
theorem rotData_mem_intro {e : Engine} {key : String} {b : Blob}
    (hb : lookupA e.disk key = some b) {s : Secret}
    (hget : e.getSecret key = .ok s) : (key, s) ∈ rotData e := by
  refine List.mem_filterMap.mpr ⟨key, ?_, ?_⟩
  · refine List.mem_filter.mpr ⟨List.mem_map_of_mem Prod.fst (lookupA_mem hb), ?_⟩
    simp [List.isPrefixOf]
  · simp [hget, Except.toOption]

/-- `filterMap` by a key-preserving partial function keeps keys nodup. -/
theorem filterMap_keys_nodup {f : String → Option (String × Secret)}
    (hf : ∀ a p, f a = some p → p.1 = a) :
    ∀ {ks : List String}, ks.Nodup → ((ks.filterMap f).map Prod.fst).Nodup := by
  intro ks
  induction ks with
  | nil => simp
  | cons a t ih =>
    intro hks
    obtain ⟨ha, ht⟩ := List.nodup_cons.mp hks
    cases hfa : f a with
    | none =>
      rw [List.filterMap_cons_none hfa]
      exact ih ht
    | some p =>
      rw [List.filterMap_cons_some hfa, List.map_cons, List.nodup_cons]
      refine ⟨?_, ih ht⟩
      intro hmem
      obtain ⟨q, hq, hq1⟩ := List.mem_map.mp hmem
      obtain ⟨b, hbt, hfb⟩ := List.mem_filterMap.mp hq
      have hb : b = a := by rw [← hf b q hfb, hq1, hf a p hfa]
      exact ha (hb ▸ hbt)

/-- The rotation pass visits each stored key at most once. -/
theorem rotData_keys_nodup {e : Engine}
    (hnd : (e.disk.map Prod.fst).Nodup) :
    ((rotData e).map Prod.fst).Nodup := by
  apply filterMap_keys_nodup
  · intro a p hp
    cases hga : (e.getSecret a).toOption with
    | none => simp [hga] at hp
    | some s =>
      simp [hga] at hp
      rw [← hp]
  · exact List.Nodup.filter _ hnd

/-- `RotateKey` with the master key present: no step after the collection
pass can fail, so the call returns plain success with the re-keyed tree and
the new key value renamed to `master`. -/
theorem rotateKey_ok {e : Engine} {m : Nat}
    (hm : lookupA e.keys "master" = some m) :
    e.rotateKey = .ok
      { keys := removeA (setA (removeA (setA e.keys "master_new" e.fresh)
            "master") "master" e.fresh) "master_new",
        fresh := e.fresh + 1,
        disk := (rotData e).foldl
          (fun d ks => setA d ks.1 ⟨e.fresh, ks.2⟩) e.disk } := by
  have h1 : lookupA (setA e.keys "master_new" e.fresh) "master" = some m := by
    rw [lookupA_setA_ne _ _ (by decide)]
    exact hm
  have h2 : lookupA (removeA (setA e.keys "master_new" e.fresh) "master")
      "master_new" = some e.fresh := by
    rw [lookupA_removeA_ne _ (by decide)]
    exact lookupA_setA_self _ _ _
  have h3 : lookupA (setA e.keys "master_new" e.fresh) "master_new" =
      some e.fresh := lookupA_setA_self _ _ _
  simp only [Engine.rotateKey, h1, h2, h3]

/-- The master key value after a successful rotation is the freshly
generated one. -/
theorem rotateKey_master_after (e : Engine) :
    lookupA (removeA (setA (removeA (setA e.keys "master_new" e.fresh)
        "master") "master" e.fresh) "master_new") "master" =
      some e.fresh := by
  rw [lookupA_removeA_ne _ (by decide)]
  exact lookupA_setA_self _ _ _

/-! ## The claims -/

/-- C10: for every key and metadata map, `SetSecret` called with the empty
string as the value fails with a validation error and writes nothing —
`Secret.Validate` rejects the empty value before marshalling, encryption
and the file write, so the engine (including any previously stored record
for that key) is unchanged. -/
theorem keeper_c10_empty_value_rejected :
    ∀ (e : Engine) (key : String) (md : Metadata) (now : Nat),
      e.setSecret key "" md now = .error .invalidSecret ∧
      e.applySet key "" md now = e := by
  intro e key md now
  exact ⟨by simp [Engine.setSecret], by simp [Engine.applySet, Engine.setSecret]⟩

/-- C5: for every key, non-empty value and metadata map, a first `Set` on
an absent key followed by `Get` returns a record whose value and metadata
equal the inputs, whose version equals 1, and whose `createdAt` equals its
`updatedAt`. -/
theorem keeper_c5_set_get_roundtrip (e : Engine) (key value : String)
    (md : Metadata) (now m : Nat) (hv : value ≠ "")
    (hd : lookupA e.disk key = none)
    (hm : lookupA e.keys "master" = some m) :
    ∃ e' s', e.setSecret key value md now = .ok e' ∧
      e'.getSecret key = .ok s' ∧
      s'.cur.value = value ∧ s'.cur.metadata = md ∧ s'.cur.version = 1 ∧
      s'.cur.created = s'.cur.updated := by
  have hget0 : e.getSecret key = .error .notFound := by
    simp [Engine.getSecret, hd]
  have hset := setSecret_ok_first hget0 value md now hv hm
  exact ⟨_, _, hset, getSecret_after_set _ hm rfl, rfl, rfl, rfl, rfl⟩

/-- Witness for C5: `Set("app/db/password","p@ss1",{env:prod})` at instant 3
on the empty engine, then `Get`. -/
theorem keeper_c5_witness :
    ∃ e' s',
      eng0.setSecret "app/db/password" "p@ss1" [("env", "prod")] 3 = .ok e' ∧
      e'.getSecret "app/db/password" = .ok s' ∧
      s'.cur.value = "p@ss1" ∧ s'.cur.metadata = [("env", "prod")] ∧
      s'.cur.version = 1 ∧ s'.cur.created = s'.cur.updated :=
  keeper_c5_set_get_roundtrip eng0 "app/db/password" "p@ss1" [("env", "prod")]
    3 0 (by decide) (by decide) (by decide)

/-- C2: for every key and every serialized sequence of N successful `Set`
calls on that key starting from an absent key, `ListSecretVersions` returns
exactly `[N, N-1, ..., 1]`, the chain reachable from the current record has
exactly those strictly decreasing contiguous version numbers, and
`createdAt` is identical across the whole chain (it is the first call's
instant). -/
theorem keeper_c2_version_monotonicity (e : Engine) (key : String) (m : Nat)
    (v0 : String) (md0 : Metadata) (t0 : Nat)
    (rest : List (String × Metadata × Nat))
    (hv : ∀ op ∈ (v0, md0, t0) :: rest, op.1 ≠ "")
    (hm : lookupA e.keys "master" = some m)
    (hd : lookupA e.disk key = none) :
    ∃ e' s', e.setMany key ((v0, md0, t0) :: rest) = .ok e' ∧
      e'.getSecret key = .ok s' ∧
      e'.listSecretVersions key =
        .ok (descFrom ((v0, md0, t0) :: rest).length) ∧
      chainVersions s' = descFrom ((v0, md0, t0) :: rest).length ∧
      ∀ r ∈ s'.chain, r.created = t0 := by
  have hget0 : e.getSecret key = .error .notFound := by
    simp [Engine.getSecret, hd]
  have hv0 : v0 ≠ "" := hv (v0, md0, t0) (List.mem_cons_self _ _)
  have hset := setSecret_ok_first hget0 v0 md0 t0 hv0 hm
  set s0 : Secret := ⟨⟨v0, md0, t0, t0, 1⟩, []⟩ with hs0
  set e1 : Engine := { e with disk := setA e.disk key ⟨m, s0⟩ } with he1
  have hget1 : e1.getSecret key = .ok s0 := getSecret_after_set ⟨m, s0⟩ hm rfl
  have hchain0 : chainVersions s0 = descFrom s0.cur.version := rfl
  have hc0 : ∀ r ∈ s0.chain, r.created = t0 := by
    intro r hr
    rcases List.mem_cons.mp hr with h | h
    · rw [h, hs0]
    · rw [hs0] at h
      simp [Secret.chain] at h
  obtain ⟨e', s', h1, h2, h3, h4, h5, h6⟩ :=
    setMany_chain key m t0 rest e1 s0
      (fun op hop => hv op (List.mem_cons_of_mem _ hop)) hm hget1 hchain0 hc0
  have hlen : s0.cur.version + rest.length =
      ((v0, md0, t0) :: rest).length := by
    rw [hs0]
    simp
    omega
  refine ⟨e', s', ?_, h3, ?_, ?_, h6⟩
  · simpa [Engine.setMany, List.foldlM_cons, hset] using h1
  · rw [hlen] at h5
    simp only [Engine.listSecretVersions, h3]
    rw [show s'.chain.map SRec.version = chainVersions s' from rfl, h5,
      insertionSort_descFrom]
  · rw [hlen] at h5
    exact h5

/-- Witness for C2: two `Set` calls on one key give `listVersions = [2, 1]`,
a contiguous chain `[2, 1]` and a constant `createdAt` of 3. -/
theorem keeper_c2_witness :
    ∃ e' s',
      eng0.setMany "k" [("p@ss1", [("env", "prod")], 3),
        ("p@ss2", [("rotated", "true")], 5)] = .ok e' ∧
      e'.getSecret "k" = .ok s' ∧
      e'.listSecretVersions "k" = .ok (descFrom 2) ∧
      chainVersions s' = descFrom 2 ∧
      ∀ r ∈ s'.chain, r.created = 3 :=
  keeper_c2_version_monotonicity eng0 "k" 0 "p@ss1" [("env", "prod")] 3
    [("p@ss2", [("rotated", "true")], 5)] (by decide) (by decide) (by decide)

/-- C3: after `RotateKey` completes (and with it every per-record step on
readable records — an unreadable record is the only way a step can fail),
`GetSecret` returns every record that was readable before the rotation
unchanged — value and metadata included — under the renamed master key. -/
theorem keeper_c3_rotation_preserves_records (e e' : Engine) (key : String)
    (s : Secret) (hnd : (e.disk.map Prod.fst).Nodup)
    (hrot : e.rotateKey = .ok e') (hget : e.getSecret key = .ok s) :
    e'.getSecret key = .ok s := by
  obtain ⟨b, m, hb, hm, hkv, hpay⟩ := getSecret_ok_elim hget
  rw [rotateKey_ok hm] at hrot
  injection hrot with hrot
  subst hrot
  have hmem : (key, s) ∈ rotData e := rotData_mem_intro hb hget
  have hdisk : lookupA ((rotData e).foldl
      (fun d ks => setA d ks.1 ⟨e.fresh, ks.2⟩) e.disk) key =
      some ⟨e.fresh, s⟩ :=
    lookupA_foldl_mem e.fresh _ _ _ _ (rotData_keys_nodup hnd) hmem
  simp [Engine.getSecret, hdisk, rotateKey_master_after]

/-- Witness for C3: rotating the mixed corpus `engC4` yields `engC4'`, and
the pre-rotation record `good` is read back unchanged. -/
theorem keeper_c3_witness : engC4'.getSecret "good" = .ok sGood :=
  keeper_c3_rotation_preserves_records engC4 engC4' "good" sGood
    (by decide) rfl rfl

/-- C4, counterexample: on the corpus `engC4` whose record `bad` cannot be
decrypted, the per-item step fails, yet `RotateKey` returns plain success —
`.ok engC4'`, a value carrying no failed-key list, count or error — and the
skipped record is left in place, unreadable.  The claim that the skip is
observable to the caller in the returned result is false at this input: the
operation's only result is the success value. -/
theorem keeper_c4_counterexample_silent_partial_failure :
    engC4.getSecret "bad" = .error .decryptFailed ∧
    engC4.rotateKey = .ok engC4' ∧
    lookupA engC4'.disk "bad" = some ⟨7, sBad⟩ ∧
    engC4'.getSecret "bad" = .error .decryptFailed :=
  ⟨rfl, rfl, rfl, rfl⟩

/-- C4, amended: when a per-item step of `RotateKey` fails, the item is
skipped without aborting the batch, but the skip is only logged: the batch
returns plain success, and the failing records are left in place under the
old key value with no failure information in the returned result. -/
theorem keeper_c4_amended_skip_with_plain_success (e : Engine) (m : Nat)
    (hm : lookupA e.keys "master" = some m) :
    ∃ e', e.rotateKey = .ok e' ∧
      ∀ key b, lookupA e.disk key = some b → b.keyVal ≠ m →
        lookupA e'.disk key = some b := by
  refine ⟨_, rotateKey_ok hm, ?_⟩
  intro key b hb hbk
  have hno : ∀ p ∈ rotData e, p.1 ≠ key := by
    intro p hp hpk
    obtain ⟨pk, ps⟩ := p
    simp only at hpk
    subst hpk
    have hok := rotData_mem_elim hp
    simp [Engine.getSecret, hb, hm, hbk] at hok
  show lookupA ((rotData e).foldl
      (fun d ks => setA d ks.1 ⟨e.fresh, ks.2⟩) e.disk) key = some b
  rw [lookupA_foldl_not_mem _ _ _ _ hno]
  exact hb

/-- Witness for C4's amended claim, at the mixed corpus `engC4`. -/
theorem keeper_c4_amended_witness :
    ∃ e', engC4.rotateKey = .ok e' ∧
      ∀ key b, lookupA engC4.disk key = some b → b.keyVal ≠ 0 →
        lookupA e'.disk key = some b :=
  keeper_c4_amended_skip_with_plain_success engC4 0 (by decide)

/-- C7: over any readable chain, `Rollback(key, n)` fails with the
version-not-found error when `n` is absent from the chain; otherwise it
performs a normal `Set` with version `n`'s value and metadata, so the new
current record and `GetVersion(key, n)` agree on value and metadata while
the current version number grows to its predecessor's successor — history
is extended, not rewritten. -/
theorem keeper_c7_rollback (e : Engine) (key : String) (v now : Nat)
    (s : Secret) (hget : e.getSecret key = .ok s) :
    (v ∉ chainVersions s →
      e.rollbackSecret key v now = .error .versionNotFound) ∧
    (∀ r, s.chain.find? (fun r => r.version = v) = some r → r.value ≠ "" →
      ∃ e' cur, e.rollbackSecret key v now = .ok e' ∧
        e'.getSecret key = .ok cur ∧
        cur.cur.value = r.value ∧ cur.cur.metadata = r.metadata ∧
        cur.cur.version = s.cur.version + 1 ∧
        ∃ r', e'.getSecretVersion key v = .ok r' ∧
          r'.value = r.value ∧ r'.metadata = r.metadata) := by
  constructor
  · intro hv
    have hfind : s.chain.find? (fun r => r.version = v) = none := by
      apply List.find?_eq_none.mpr
      intro r hr
      simp only [decide_eq_true_eq]
      intro hrv
      exact hv (hrv ▸ List.mem_map_of_mem SRec.version hr)
    simp [Engine.rollbackSecret, Engine.getSecretVersion, hget, hfind]
  · intro r hfind hrv
    obtain ⟨b, m, hb, hm, hkv, hpay⟩ := getSecret_ok_elim hget
    have hgv : e.getSecretVersion key v = .ok r := by
      simp [Engine.getSecretVersion, hget, hfind]
    have hset := setSecret_ok_next hget r.value r.metadata now hrv hm
    set s1 : Secret :=
      ⟨⟨r.value, r.metadata, s.cur.created, now, s.cur.version + 1⟩, s.chain⟩
      with hs1
    set e1 : Engine := { e with disk := setA e.disk key ⟨m, s1⟩ } with he1
    have hget1 : e1.getSecret key = .ok s1 := getSecret_after_set ⟨m, s1⟩ hm rfl
    refine ⟨e1, s1, ?_, hget1, rfl, rfl, rfl, ?_⟩
    · simp [Engine.rollbackSecret, hgv]
      exact hset
    · by_cases hv1 : s.cur.version + 1 = v
      · refine ⟨s1.cur, ?_, rfl, rfl⟩
        simp only [Engine.getSecretVersion, hget1]
        rw [show s1.chain = s1.cur :: s.chain from rfl,
          List.find?_cons_of_pos _ (by simp [hs1, hv1])]
      · refine ⟨r, ?_, rfl, rfl⟩
        simp only [Engine.getSecretVersion, hget1]
        rw [show s1.chain = s1.cur :: s.chain from rfl,
          List.find?_cons_of_neg _ (by simp [hs1, hv1]), hfind]

/-- Witness for C7: on the two-version chain of `engC7`, rolling back to the
absent version 9 fails with the version-not-found error, and rolling back to
version 1 creates version 3 agreeing with version 1 on value and metadata. -/
theorem keeper_c7_witness :
    engC7.rollbackSecret "k" 9 7 = .error .versionNotFound ∧
    ∃ e' cur, engC7.rollbackSecret "k" 1 7 = .ok e' ∧
      e'.getSecret "k" = .ok cur ∧
      cur.cur.value = rC7v1.value ∧ cur.cur.metadata = rC7v1.metadata ∧
      cur.cur.version = sC7.cur.version + 1 ∧
      ∃ r', e'.getSecretVersion "k" 1 = .ok r' ∧
        r'.value = rC7v1.value ∧ r'.metadata = rC7v1.metadata :=
  ⟨(keeper_c7_rollback engC7 "k" 9 7 sC7 rfl).1 (by decide),
   (keeper_c7_rollback engC7 "k" 1 7 sC7 rfl).2 rC7v1
     (by decide) (by decide)⟩

/-- C1: the plain local provider (`internal/providers/local/local.go`)
persists the serialized plaintext record.  For any regexp oracle and any
schema tree, its `SetSecret` on the secret `{name: db, value: p@ss1}`
succeeds and the file contents it writes contain the plaintext value
`p@ss1` as a substring — the record is the plaintext JSON serialization,
not authenticated-encryption output. -/
theorem keeper_c1_plain_local_set_persists_plaintext :
    ∀ (rx : String → String → Bool) (schemas : String → Option PSchema),
      ∃ out, plainSetSecretData rx schemas secretC1 7 = .ok out ∧
        containsSubstring out secretC1.value := by
  intro rx schemas
  refine ⟨_, rfl, "\x7b\n  \"name\": \"db\",\n  \"value\": \"",
    "\",\n  \"created_at\": 7,\n  \"updated_at\": 7\n\x7d", ?_⟩
  decide

/-- C6: the tag check of `matchesSearch` declares its `found` flag once,
outside the loop over the requested tags, so once any requested tag is
found the remaining requested tags are never effectively checked.  Over
secrets `{a: tags=[x], b: tags=[x,y], c: tags=[y]}`, searching tags=`[x]`
returns `{a, b}` as the claim states, but searching tags=`[x, y]` also
returns `{a, b}` — including `a`, which does not carry tag `y` — where the
claim requires `{b}` only. -/
theorem keeper_c6_tag_search_sticky_found :
    plainSearchSecrets [aC6, bC6, cC6] ⟨"", ["x", "y"], 0⟩ = [aC6, bC6] ∧
    carriesAllTags aC6 ["x", "y"] = false ∧
    plainSearchSecrets [aC6, bC6, cC6] ⟨"", ["x"], 0⟩ = [aC6, bC6] := by
  decide

/-- C9: the schema validation on the `Set` path
(`providers.ValidateSecret`, called by the plain local provider's
`SetSecret`) performs no type check at all: against a schema declaring
`port : number`, the metadata `{"port": "not-a-number"}` passes validation
and the `Set` is accepted, for every regexp oracle.  The repository's other
validator, `internal/schema.Field.validate` — which the claim describes —
does check the type first and rejects the same value naming field `port`. -/
theorem keeper_c9_number_type_not_checked :
    ∀ rx : String → String → Bool,
      validateSecret rx secretC9.metadata portSchema = .ok () ∧
      (plainSetSecretData rx (fun _ => some portSchema) secretC9 5).isOk =
        true ∧
      fieldValidate rx "port" portSField (.str "not-a-number") =
        .error (.wrongType "port") := by
  intro rx
  exact ⟨rfl, rfl, rfl⟩

/-- C8, counterexample: `AzureProvider.RotateSecret` on a due policy
(length 32, character set `alphanumeric`) without a custom generator
replaces the value with `"rotated-v-5"` — a string whose length is not
`policy.length` and which contains characters outside the named character
set — refuting the claim that the new value is a string of exactly
`policy.length` characters drawn from the character set. -/
theorem keeper_c8_counterexample_default_generator :
    azureRotateSecret secretC8 policyC8 none 5 =
      some ("rotated-v-5",
        [("previous_value", "v"), ("last_rotation", "5"),
          ("next_rotation", "15")]) ∧
    "rotated-v-5".length ≠ policyC8.length ∧
    ("rotated-v-5".data.all (charsetMember policyC8.characterSet)) =
      false := by
  decide

/-- C8, amended: for every secret with a rotation policy, `RotateSecret`
before `nextRotation` succeeds as a no-op, leaving value and
`metadata["previous_value"]` unchanged (nothing is written); when due
without a custom generator it replaces the value with
`"rotated-<oldValue>-<now>"` — not a `policy.length`-character draw from
the named character set — and sets `metadata["previous_value"]` to the
pre-rotation value, `last_rotation` to now and `next_rotation` to
now + interval. -/
theorem keeper_c8_amended_azure_rotation (secret : PSecret)
    (policy : RotationPolicy) (g : Option (Unit → String)) (now : Nat) :
    (now < policy.nextRotation →
      azureRotateSecret secret policy g now = none) ∧
    (policy.nextRotation ≤ now →
      ∃ md, azureRotateSecret secret policy none now =
          some ("rotated-" ++ secret.value ++ "-" ++ toString now, md) ∧
        lookupA md "previous_value" = some secret.value ∧
        lookupA md "last_rotation" = some (toString now) ∧
        lookupA md "next_rotation" =
          some (toString (now + policy.interval))) := by
  constructor
  · intro h
    simp [azureRotateSecret, h]
  · intro h
    refine ⟨setA (setA (setA secret.metadata "previous_value" secret.value)
        "last_rotation" (toString now)) "next_rotation"
        (toString (now + policy.interval)), ?_, ?_, ?_, ?_⟩
    · simp [azureRotateSecret, Nat.not_lt.mpr h]
    · rw [lookupA_setA_ne _ _ (by decide), lookupA_setA_ne _ _ (by decide)]
      exact lookupA_setA_self _ _ _
    · rw [lookupA_setA_ne _ _ (by decide)]
      exact lookupA_setA_self _ _ _
    · exact lookupA_setA_self _ _ _

/-- Witness for C8's amended claim: at instant 3 the policy due at 5 is a
no-op; at instant 5 it is due and rotates with the default generator. -/
theorem keeper_c8_amended_witness :
    azureRotateSecret secretC8 policyC8 none 3 = none ∧
    ∃ md, azureRotateSecret secretC8 policyC8 none 5 =
        some ("rotated-" ++ secretC8.value ++ "-" ++ toString 5, md) ∧
      lookupA md "previous_value" = some secretC8.value ∧
      lookupA md "last_rotation" = some (toString 5) ∧
      lookupA md "next_rotation" = some (toString (5 + policyC8.interval)) :=
  ⟨(keeper_c8_amended_azure_rotation secretC8 policyC8 none 3).1 (by decide),
   (keeper_c8_amended_azure_rotation secretC8 policyC8 none 5).2 (by decide)⟩

end Keeper
